import Mathlib

/-!
Shallow embedding of the vote-verification backend
(`backend/table_parser.py`, `backend/vote_parser.py`,
`backend/pdf_extractor.py`) of the verificare-rezultate-alegeri
repository, together with proofs about the properties its design
documentation states.

Conventions of the embedding:
* Python strings are `String`/`List Char`; table cells coming from the
  document-rendering collaborator are `Option String` (`None` or a string).
* Python `int` is `Int`; fallible conversions return `Option`/`Except`.
* Python exceptions are the `PyError` type; code that can raise is
  embedded in `Except PyError`; a `try/except ValueError` catches exactly
  the `valueError` constructor.
* Python dicts over string keys are association lists in insertion order,
  updated in place on key collision, exactly like CPython dicts.
* `CANDIDATE_NAMES` is imported by the sources from `constants.py`, a file
  that is not part of the provided sources; every function therefore takes
  the registry as an explicit `registry` argument, and a concrete
  spec-modelled instance is provided for concrete evaluations.
-/

/-- A table cell as produced by the document-rendering collaborator:
either a string or an empty (`None`) cell. -/
abbrev Cell := Option String

/-- A two-dimensional table grid (header row + data rows). -/
abbrev Grid := List (List Cell)

/-- Python whitespace (the ASCII part of the `\s` class, of `str.strip()`
and of `int()` surrounding-whitespace handling; the full Unicode whitespace
set is not modelled). -/
def pyWs (c : Char) : Bool :=
  c = ' ' || c = '\t' || c = '\n' || c = '\r' || c = '\x0b' || c = '\x0c'

/-- Strip `pyWs` characters from both ends of a character list. -/
def pyStripList (l : List Char) : List Char :=
  ((l.dropWhile pyWs).reverse.dropWhile pyWs).reverse

/-- Python `str.strip()` (restricted to the modelled whitespace set). -/
def pyStrip (s : String) : String := String.mk (pyStripList s.data)

/-- ASCII decimal digit (the ASCII part of the `\d` class; Python also
accepts other Unicode decimal digits, which are not modelled). -/
def isDigitChar (c : Char) : Bool := '0' ≤ c && c ≤ '9'

/-- Digit run with optional single interior underscores, as accepted by
Python `int()` after sign and whitespace handling. -/
def digitsOK : List Char → Bool
  | [] => false
  | [c] => isDigitChar c
  | c :: '_' :: rest => isDigitChar c && digitsOK rest
  | c :: c2 :: rest => isDigitChar c && digitsOK (c2 :: rest)

/-- Decimal value of the digits of a character list (underscores skipped). -/
def digitsVal (l : List Char) : Nat :=
  (l.filter isDigitChar).foldl (fun acc c => 10 * acc + (c.toNat - '0'.toNat)) 0

/-- Python `int(s)` for a string argument: strips surrounding whitespace,
accepts an optional sign followed by a digit run with optional single
interior underscores.  Returns `none` exactly where Python raises
`ValueError`. -/
def pyInt (s : String) : Option Int :=
  match pyStripList s.data with
  | '-' :: rest => if digitsOK rest then some (-(digitsVal rest : Int)) else none
  | '+' :: rest => if digitsOK rest then some ((digitsVal rest : Int)) else none
  | l => if digitsOK l then some ((digitsVal l : Int)) else none

/-- One extracted candidate entry (`{"name": ..., "votes": ...}` in the
sources). -/
structure VoteRecord where
  name : String
  votes : Int
  deriving Repr, DecidableEq

/-- Modelled from the spec: the Candidate Registry (`CANDIDATE_NAMES`,
imported by the sources from `constants.py`, which is not among the
provided source files).  Per §4.1 of the design it is a fixed, ordered set
of canonical candidate name strings; the concrete names are not given by
the spec, so two representative uppercase names are used here.  All
general theorems below are proved for an arbitrary registry list; this
concrete instance is only used to evaluate the definitions at concrete
inputs. -/
def CANDIDATE_NAMES : List String := ["POPESCU ION", "IONESCU MARIA"]

/-- Python exceptions relevant to the embedded code. -/
inductive PyError where
  | valueError (msg : String)
  | typeError
  | fileNotFoundError (msg : String)
  | indexError
  deriving Repr, DecidableEq

/-- Python truthiness of a table cell: `None` and the empty string are
falsy, every other string is truthy. -/
def truthyCell : Cell → Bool
  | none => false
  | some s => s != ""

/-- Python `int(cell)` on a table cell: a `None` cell raises `TypeError`
(which `except ValueError` does not catch); a string cell parses via
`pyInt` or raises `ValueError`. -/
def pyIntOfCell : Cell → Except PyError Int
  | none => .error .typeError
  | some s =>
      match pyInt s with
      | some n => .ok n
      | none => .error (.valueError "invalid literal for int with base 10")

/-- One iteration of the row loop of `parse_table_votes`
(`table_parser.py` lines 8-20): guard `len(row) >= 3 and row[1] and
row[2]`, then `try: votes = int(row[2]); name = row[1].strip(); ...`.
Returns `ok none` when the row is skipped (guard false, or `ValueError`
caught by the `except ValueError: continue`, or name outside the
registry), `ok (some r)` when a record is appended, and propagates any
other error. -/
def rowStep (registry : List String) (row : List Cell) : Except PyError (Option VoteRecord) :=
  if 3 ≤ row.length ∧ truthyCell (row.getD 1 none) = true ∧ truthyCell (row.getD 2 none) = true then
    match pyIntOfCell (row.getD 2 none) with
    | .error (.valueError _) => .ok none
    | .error e => .error e
    | .ok votes =>
        match row.getD 1 none with
        | none => .error .typeError
        | some s =>
            let name := pyStrip s
            if name ∈ registry then .ok (some ⟨name, votes⟩) else .ok none
  else .ok none

/-- The row loop of `parse_table_votes`, accumulating appended records. -/
def tableRows (registry : List String) (rows : List (List Cell)) (acc : List VoteRecord) :
    Except PyError (List VoteRecord) :=
  match rows with
  | [] => .ok acc
  | row :: rest =>
      match rowStep registry row with
      | .error e => .error e
      | .ok none => tableRows registry rest acc
      | .ok (some r) => tableRows registry rest (acc ++ [r])

/-- `parse_table_votes` (`table_parser.py` lines 1-22): returns `[]` for an
empty or header-only grid, otherwise runs the row loop over
`table_data[1:]`. -/
def parse_table_votes (registry : List String) (table_data : Grid) :
    Except PyError (List VoteRecord) :=
  if table_data = [] ∨ table_data.length < 2 then .ok []
  else tableRows registry table_data.tail []

/-- The character class `[A-ZĂÎÂȘȚ]` of the vote pattern in
`vote_parser.py` line 10. -/
def upperRo (c : Char) : Bool :=
  ('A' ≤ c && c ≤ 'Z') || c = 'Ă' || c = 'Î' || c = 'Â' || c = 'Ș' || c = 'Ț'

/-- The character class `[A-ZĂÎÂȘȚ\s\-\.]` of the vote pattern. -/
def nameClass (c : Char) : Bool := upperRo c || pyWs c || c = '-' || c = '.'

/-- Match `\s+(\d+)` at the head of `l` (greedy `\s+`, then a nonempty
digit run); returns the digit group and the rest of the input. -/
def matchTail (l : List Char) : Option (List Char × List Char) :=
  let ws := l.takeWhile pyWs
  let r1 := l.dropWhile pyWs
  if ws.isEmpty then none
  else
    let ds := r1.takeWhile isDigitChar
    let r2 := r1.dropWhile isDigitChar
    if ds.isEmpty then none else some (ds, r2)

/-- Greedy backtracking of the `[A-ZĂÎÂȘȚ\s\-\.]+` part of group 1 of the
pattern `([A-ZĂÎÂȘȚ][A-ZĂÎÂȘȚ\s\-\.]+)\s+(\d+)`: `run` is the maximal
class run after the leading upper-case letter `c0`, and the matcher keeps
the largest `k ≥ 1` characters of `run` in group 1 such that `\s+(\d+)`
matches the remainder, exactly as the regex engine backtracks a greedy
`+`.  Returns `(group 1, group 2, rest of input)`. -/
def tryBacktrack (c0 : Char) (run after : List Char) : Nat → Option (String × String × List Char)
  | 0 => none
  | Nat.succ k =>
      match matchTail (run.drop (k + 1) ++ after) with
      | some (ds, rest) => some (String.mk (c0 :: run.take (k + 1)), String.mk ds, rest)
      | none => tryBacktrack c0 run after k

/-- `re.findall` of the vote pattern: scan left to right, at each position
whose character is in `[A-ZĂÎÂȘȚ]` attempt a greedy backtracking match;
on success emit the two groups and continue after the match, on failure
advance one character.  `fuel` bounds the recursion (any value above the
input length is enough, since every step consumes at least one
character). -/
def findVoteMatches (fuel : Nat) (l : List Char) : List (String × String) :=
  match fuel, l with
  | 0, _ => []
  | _ + 1, [] => []
  | f + 1, c :: rest =>
      if upperRo c then
        let run := rest.takeWhile nameClass
        let after := rest.dropWhile nameClass
        match tryBacktrack c run after run.length with
        | some (g1, g2, restAll) => (g1, g2) :: findVoteMatches f restAll
        | none => findVoteMatches f rest
      else findVoteMatches f rest

/-- `parse_candidate_votes` (`vote_parser.py` lines 4-28): find all
pattern matches, strip the name, convert the digit group with `int()`
(group 2 is a nonempty digit run, so `pyInt` always succeeds and the
`getD 0` default is unreachable), and keep the record only if
`name in CANDIDATE_NAMES and votes >= 0`. -/
def parse_candidate_votes (registry : List String) (text : String) : List VoteRecord :=
  (findVoteMatches (text.data.length + 1) text.data).filterMap fun m =>
    let name := pyStrip m.1
    let votes : Int := (pyInt m.2).getD 0
    if name ∈ registry ∧ 0 ≤ votes then some ⟨name, votes⟩ else none

/-- `format_results` (`vote_parser.py` lines 30-35). -/
def format_results (results : List VoteRecord) : String :=
  String.intercalate "\n"
    ((List.range results.length).zip results |>.map fun p =>
      toString (p.1 + 1) ++ " " ++ p.2.name ++ " " ++ toString p.2.votes)

/-- A Python dict from candidate names to votes, as an association list in
insertion order. -/
abbrev PyDict := List (String × Int)

/-- Python dict assignment `d[k] = v`: update in place if the key exists,
otherwise append (CPython insertion order). -/
def pyDictInsert (d : PyDict) (k : String) (v : Int) : PyDict :=
  if d.any (fun p => p.1 == k) then
    d.map (fun p => if p.1 == k then (k, v) else p)
  else d ++ [(k, v)]

/-- The dict comprehension building a name-to-votes mapping from a
VoteSet (`vote_parser.py` lines 43-44); last write wins on duplicate
names. -/
def buildDict (votes : List VoteRecord) : PyDict :=
  votes.foldl (fun d r => pyDictInsert d r.name r.votes) []

/-- Python `dict.get(k)` (returning `None` when absent). -/
def dictGet (d : PyDict) (k : String) : Option Int :=
  (d.find? (fun p => p.1 == k)).map (fun p => p.2)

/-- One entry of the `differences` list of `compare_vote_results`. -/
structure Difference where
  name : String
  text_votes : Option Int
  ocr_votes : Option Int
  deriving Repr, DecidableEq

/-- The report returned by `compare_vote_results`. -/
structure CompareReport where
  all_match : Bool
  differences : List Difference
  deriving Repr, DecidableEq

/-- First pass of `compare_vote_results` (`vote_parser.py` lines 47-64):
walk the registry in canonical order and record a difference whenever a
name is missing on either side or the two values differ. -/
def registryDiffs (registry : List String) (text_dict ocr_dict : PyDict) : List Difference :=
  registry.filterMap fun name =>
    match dictGet text_dict name, dictGet ocr_dict name with
    | some tv, some ov => if tv = ov then none else some ⟨name, some tv, some ov⟩
    | tv, ov => some ⟨name, tv, ov⟩

/-- Second pass of `compare_vote_results` (`vote_parser.py` lines 66-74):
walk the OCR dict in insertion order and record a difference for every
name absent from the text dict. -/
def extraOcrDiffs (text_dict ocr_dict : PyDict) : List Difference :=
  ocr_dict.filterMap fun p =>
    if text_dict.any (fun q => q.1 == p.1) then none
    else some ⟨p.1, none, some p.2⟩

/-- `compare_vote_results` (`vote_parser.py` lines 37-79).  The source
initialises `all_match = True` and sets it to `False` exactly when it
appends a difference, so `all_match` equals emptiness of the collected
`differences`. -/
def compare_vote_results (registry : List String) (text_votes ocr_votes : List VoteRecord) :
    CompareReport :=
  let text_dict := buildDict text_votes
  let ocr_dict := buildDict ocr_votes
  let diffs := registryDiffs registry text_dict ocr_dict ++ extraOcrDiffs text_dict ocr_dict
  ⟨diffs.isEmpty, diffs⟩

/-- One entry of the `candidates` list returned by
`format_table_results`.  Python computes `percentage` in floating point;
it is modelled as an exact rational here. -/
structure FormattedCandidate where
  name : String
  votes : Int
  percentage : Rat
  deriving Repr, DecidableEq

/-- The report returned by `format_table_results`. -/
structure FormattedReport where
  total_votes : Int
  candidates : List FormattedCandidate
  deriving Repr, DecidableEq

/-- Python `round(x, 2)` (round half to even), modelled exactly on
rationals. -/
def pyRound2 (q : Rat) : Rat :=
  let s := q * 100
  let f : Int := ⌊s⌋
  let r : Rat := s - (f : Rat)
  let n : Int :=
    if r < 1 / 2 then f
    else if 1 / 2 < r then f + 1
    else if f % 2 = 0 then f else f + 1
  (n : Rat) / 100

/-- The formatting loop of `format_table_results` (`table_parser.py`
lines 34-41), before sorting: percentage is `votes / total * 100` when the
total is positive and `0` otherwise, rounded to two decimals. -/
def formattedOf (total_votes : Int) (candidates : List VoteRecord) : List FormattedCandidate :=
  candidates.map fun c =>
    let percentage : Rat :=
      if 0 < total_votes then (c.votes : Rat) / (total_votes : Rat) * 100 else 0
    ⟨c.name, c.votes, pyRound2 percentage⟩

/-- Stable descending insertion by `votes`: a later element is placed
after every earlier element with the same or a larger vote count. -/
def insertDesc (x : FormattedCandidate) : List FormattedCandidate → List FormattedCandidate
  | [] => [x]
  | y :: ys => if y.votes < x.votes then x :: y :: ys else y :: insertDesc x ys

/-- `formatted_candidates.sort(key=lambda x: x["votes"], reverse=True)`
(`table_parser.py` line 44).  Python `list.sort` is a stable sort; a
stable sort by one key is extensionally unique, so it is modelled by
stable insertion sort. -/
def sortByVotesDesc (l : List FormattedCandidate) : List FormattedCandidate :=
  l.foldl (fun acc x => insertDesc x acc) []

/-- `format_table_results` (`table_parser.py` lines 24-49). -/
def format_table_results (candidates : List VoteRecord) : FormattedReport :=
  if candidates = [] then ⟨0, []⟩
  else
    let total_votes := (candidates.map (fun c => c.votes)).sum
    ⟨total_votes, sortByVotesDesc (formattedOf total_votes candidates)⟩

/-- One page of a parsed document as supplied by the document-rendering
collaborator (`pdfplumber`): `extract_text()` returns a string or `None`,
and `find_tables()`/`extract()` yield a list of cell grids. -/
structure PdfPage where
  text : Option String
  tables : List Grid
  deriving Repr, DecidableEq

/-- A parsed document: its ordered pages. -/
structure Pdf where
  pages : List PdfPage
  deriving Repr, DecidableEq

/-- The filesystem as seen by `extract_pdf_content`: an association list
from paths to parseable documents; `os.path.exists` succeeds exactly on
the listed paths. -/
abbrev PdfFs := List (String × Pdf)

/-- Lookup of a path in the modelled filesystem. -/
def lookupPdf (fs : PdfFs) (path : String) : Option Pdf :=
  (fs.find? (fun p => p.1 == path)).map (fun p => p.2)

/-- The per-page content object built by `extract_pdf_content`
(`pdf_extractor.py` lines 64-77).  The image/OCR enrichment performed
after the `pdfplumber` block uses external collaborators (`pdf2image`,
`pytesseract`, Google Vision) and is outside the embedded core. -/
structure PageContent where
  page_number : Int
  text : String
  text_tables : List Grid
  text_parsed_votes : List VoteRecord
  text_formatted_results : FormattedReport
  ocr_parsed_votes : List VoteRecord
  ocr_formatted_results : String
  ocr_total_votes : Int
  vote_comparison : CompareReport
  deriving Repr, DecidableEq

/-- The result object of `extract_pdf_content` (its `pages` list). -/
structure ExtractResult where
  pages : List PageContent
  deriving Repr, DecidableEq

/-- Python sequence indexing `l[i]` with negative-index semantics; the
defaults are unreachable under the guards in force at the call sites. -/
def pyListGet (l : List PdfPage) (i : Int) : Except PyError PdfPage :=
  if 0 ≤ i ∧ i < (l.length : Int) then .ok (l.getD i.toNat ⟨none, []⟩)
  else if -(l.length : Int) ≤ i ∧ i < 0 then .ok (l.getD (l.length - (-i).toNat) ⟨none, []⟩)
  else .error .indexError

/-- `extract_pdf_content` (`pdf_extractor.py` lines 37-122): raises
`FileNotFoundError` when the path does not exist, opens the document,
raises `ValueError` when the requested page number exceeds the page
count, and otherwise builds the page content object from the selected
page.  The `check_poppler_installation` call is an environment
precondition on an external tool, not a function of the inputs, and is
assumed satisfied; the trailing image/OCR enrichment is performed by
external collaborators and not modelled. -/
def extract_pdf_content (registry : List String) (fs : PdfFs) (pdf_path : String)
    (page_number : Int) : Except PyError ExtractResult := do
  match lookupPdf fs pdf_path with
  | none => throw (.fileNotFoundError ("PDF file not found: " ++ pdf_path))
  | some pdf =>
      if (pdf.pages.length : Int) < page_number then
        throw (.valueError ("PDF only has " ++ toString pdf.pages.length ++
          " pages, requested page " ++ toString page_number))
      else do
        let page ← pyListGet pdf.pages (page_number - 1)
        let text := page.text.getD ""
        let text_tables := page.tables
        let ocr_parsed_votes := parse_candidate_votes registry text
        let text_parsed_votes ← parse_table_votes registry (text_tables.headD [])
        pure ⟨[{ page_number := page_number
                 text := text
                 text_tables := text_tables
                 text_parsed_votes := text_parsed_votes
                 text_formatted_results := format_table_results text_parsed_votes
                 ocr_parsed_votes := ocr_parsed_votes
                 ocr_formatted_results := format_results ocr_parsed_votes
                 ocr_total_votes := (ocr_parsed_votes.map (fun v => v.votes)).sum
                 vote_comparison := compare_vote_results registry text_parsed_votes
                   ocr_parsed_votes }]⟩

/-- An entry of the shared `processed_files` set in `process_file`.  The
set normally holds filename strings (it is seeded from the names of the
files on disk), but the download branch rebinds the `pdf_file` variable
to the HTTP response object, so a response object can be added too; each
download produces a distinct object, modelled by a numeric tag. -/
inductive RegEntry where
  | filename (s : String)
  | responseObj (tag : Nat)
  deriving Repr, DecidableEq

/-- Python `set.add`. -/
def pySetAdd (s : List RegEntry) (x : RegEntry) : List RegEntry :=
  if x ∈ s then s else s ++ [x]

/-- One per-file metadata dict from the remote index; `get("url")`
returns `None` when the key is absent. -/
structure FileMeta where
  url : Option String
  deriving Repr, DecidableEq

/-- The mutable state that `process_file` reads and writes: the files
present in the `data/pdfs` area (by filename), the shared in-memory
`processed_files` set, the sequence of writes into the `data/problems`
area (by item identifier), the download attempts performed (by URL), and
the log of `print` calls. -/
structure OrchState where
  pdfsOnDisk : List String
  processedFiles : List RegEntry
  problemsWrites : List String
  downloadAttempts : List String
  log : List String
  deriving Repr, DecidableEq

/-- Python `None`-aware f-string interpolation of `f[0].get("url")`. -/
def optUrlStr : Option String → String
  | none => "None"
  | some s => s

/-- The characters after the last slash, i.e. `url.split("/")[-1]`. -/
def lastSegment (s : String) : String :=
  String.mk ((s.data.reverse.takeWhile (fun c => c ≠ '/')).reverse)

/-- `process_file` (`pdf_extractor.py` lines 162-206).  The extraction
pipeline run on the saved document is abstracted by `extractOutcome`,
mapping the filename to either an exception or the `all_match` flag of
its reconciliation report (the only part of the content `process_file`
inspects; the persisted problems JSON is tracked by item identifier).
Note the source rebinds `pdf_file` to the response object inside the
download branch before `processed_files.add(pdf_file)` runs. -/
def process_file (extractOutcome : String → Except Unit Bool)
    (file_data : String × List FileMeta) (st : OrchState) : OrchState :=
  let id := file_data.1
  match file_data.2 with
  | [] => { st with log := st.log ++ ["File not found for " ++ id] }
  | f0 :: _ =>
      let pdf_url := "https://prezenta.roaep.ro/prezidentiale24112024/" ++ optUrlStr f0.url
      let pdf_file := lastSegment pdf_url
      let saved_filename := "data/pdfs/" ++ pdf_file
      if RegEntry.filename pdf_file ∈ st.processedFiles then
        { st with log := st.log ++ ["Skipping already processed file: " ++ id] }
      else
        let st := { st with log := st.log ++ ["Downloading " ++ pdf_url] }
        -- download branch; rebinds the pdf_file variable on download
        let (st, pdfVar) :=
          if pdf_file ∈ st.pdfsOnDisk then (st, RegEntry.filename pdf_file)
          else
            ({ st with
                pdfsOnDisk := st.pdfsOnDisk ++ [pdf_file]
                downloadAttempts := st.downloadAttempts ++ [pdf_url] },
             RegEntry.responseObj st.downloadAttempts.length)
        let st := { st with log := st.log ++ ["Processing " ++ saved_filename] }
        match extractOutcome pdf_file with
        | .error _ => { st with log := st.log ++ ["Error processing " ++ id] }
        | .ok is_matching =>
            let st :=
              if is_matching then st
              else
                { st with
                    log := st.log ++ ["The votes do not match for " ++ id]
                    problemsWrites := st.problemsWrites ++ [id] }
            { st with processedFiles := pySetAdd st.processedFiles pdfVar }

/-- Decidable equality on `Except`, for evaluating the embedded fallible
functions at concrete inputs. -/
instance {ε α : Type} [DecidableEq ε] [DecidableEq α] : DecidableEq (Except ε α) := fun a b =>
  match a, b with
  | .ok x, .ok y =>
      if h : x = y then .isTrue (by rw [h]) else .isFalse (by intro hc; cases hc; exact h rfl)
  | .error x, .error y =>
      if h : x = y then .isTrue (by rw [h]) else .isFalse (by intro hc; cases hc; exact h rfl)
  | .ok _, .error _ => .isFalse (by intro hc; cases hc)
  | .error _, .ok _ => .isFalse (by intro hc; cases hc)

/-! ### Lemmas about the table parser -/

/-- A truthy cell is a nonempty string. -/
theorem truthyCell_some {c : Cell} (h : truthyCell c = true) : ∃ s, c = some s ∧ s ≠ "" := by
  cases c with
  | none => simp [truthyCell] at h
  | some s =>
      refine ⟨s, rfl, ?_⟩
      simp [truthyCell] at h
      exact h

/-- The row loop body never raises: the length guard protects the cell
accesses, truthiness of the cells rules out `TypeError`, and the only
remaining error, `ValueError` from `int()`, is caught. -/
theorem rowStep_isOk (registry : List String) (row : List Cell) :
    ∃ o, rowStep registry row = .ok o := by
  unfold rowStep
  split
  · next h =>
    obtain ⟨s2, hs2, -⟩ := truthyCell_some h.2.2
    obtain ⟨s1, hs1, -⟩ := truthyCell_some h.2.1
    rw [hs2, hs1]
    cases hp : pyInt s2 with
    | some n =>
        simp only [pyIntOfCell, hp]
        split
        · exact ⟨_, rfl⟩
        · exact ⟨none, rfl⟩
    | none =>
        simp only [pyIntOfCell, hp]
        exact ⟨none, rfl⟩
  · exact ⟨none, rfl⟩

/-- The whole row loop never raises. -/
theorem tableRows_isOk (registry : List String) (rows : List (List Cell))
    (acc : List VoteRecord) : ∃ l, tableRows registry rows acc = .ok l := by
  induction rows generalizing acc with
  | nil => exact ⟨acc, rfl⟩
  | cons row rest ih =>
      obtain ⟨o, ho⟩ := rowStep_isOk registry row
      cases o with
      | none => simpa [tableRows, ho] using ih acc
      | some r => simpa [tableRows, ho] using ih (acc ++ [r])

/-- A record appended by the row loop has its (stripped) name in the
registry and carries the `int()` value of the third cell. -/
theorem rowStep_some (registry : List String) (row : List Cell) (r : VoteRecord)
    (h : rowStep registry row = .ok (some r)) :
    r.name ∈ registry ∧
      ∃ s1 s2, row.getD 1 none = some s1 ∧ row.getD 2 none = some s2 ∧
        r.name = pyStrip s1 ∧ pyInt s2 = some r.votes := by
  unfold rowStep at h
  split at h
  · next hg =>
    obtain ⟨s2, hs2, -⟩ := truthyCell_some hg.2.2
    obtain ⟨s1, hs1, -⟩ := truthyCell_some hg.2.1
    rw [hs2, hs1] at h
    cases hp : pyInt s2 with
    | some n =>
        simp only [pyIntOfCell, hp] at h
        split at h
        · cases h
          exact ⟨by assumption, s1, s2, hs1, hs2, rfl, hp⟩
        · cases h
    | none =>
        simp only [pyIntOfCell, hp] at h
        cases h
  · cases h

/-- Every record in the output of the row loop comes from the accumulator
or was appended with its name in the registry. -/
theorem tableRows_mem (registry : List String) (rows : List (List Cell))
    (acc l : List VoteRecord) (hacc : ∀ r ∈ acc, r.name ∈ registry)
    (h : tableRows registry rows acc = .ok l) : ∀ r ∈ l, r.name ∈ registry := by
  induction rows generalizing acc with
  | nil =>
      cases h
      exact hacc
  | cons row rest ih =>
      unfold tableRows at h
      cases ho : rowStep registry row with
      | error e => rw [ho] at h; cases h
      | ok o =>
          rw [ho] at h
          cases o with
          | none => exact ih acc hacc h
          | some r =>
              refine ih (acc ++ [r]) ?_ h
              intro x hx
              rcases List.mem_append.mp hx with hx | hx
              · exact hacc x hx
              · rcases List.mem_singleton.mp hx with rfl
                exact (rowStep_some registry row x ho).1

/-- Every record produced by `parse_candidate_votes` passed the final
filter `name in CANDIDATE_NAMES and votes >= 0`. -/
theorem mem_parse_candidate_votes (registry : List String) (text : String)
    (r : VoteRecord) (h : r ∈ parse_candidate_votes registry text) :
    r.name ∈ registry ∧ 0 ≤ r.votes := by
  unfold parse_candidate_votes at h
  obtain ⟨m, -, hm⟩ := List.mem_filterMap.mp h
  dsimp only at hm
  split at hm
  · next hcond =>
    cases hm
    exact hcond
  · cases hm

/-- C6: `parse_table_votes` never raises an error for any input grid of
string-or-empty cells, and an empty or header-only grid yields the empty
VoteSet; the embedding propagates every uncaught Python exception through
`Except`, so totality of the `ok` result is exactly "no error is ever
raised". -/
theorem parse_table_votes_never_raises (registry : List String) (table_data : Grid) :
    (∃ l, parse_table_votes registry table_data = .ok l) ∧
      parse_table_votes registry [] = .ok [] ∧
      ∀ hdr, parse_table_votes registry [hdr] = .ok [] := by
  refine ⟨?_, rfl, fun hdr => rfl⟩
  unfold parse_table_votes
  split
  · exact ⟨[], rfl⟩
  · exact tableRows_isOk registry table_data.tail []

/-- C5: every VoteRecord in the VoteSet returned by either parser has a
name that is a member of the Candidate Registry: names outside the
registry are discarded before reaching the result. -/
theorem parsers_names_in_registry (registry : List String) :
    (∀ table_data l, parse_table_votes registry table_data = .ok l →
        ∀ r ∈ l, r.name ∈ registry) ∧
      (∀ text, ∀ r ∈ parse_candidate_votes registry text, r.name ∈ registry) := by
  constructor
  · intro table_data l h r hr
    unfold parse_table_votes at h
    split at h
    · cases h
      cases hr
    · exact tableRows_mem registry table_data.tail [] l (by intro x hx; cases hx) h r hr
  · intro text r hr
    exact (mem_parse_candidate_votes registry text r hr).1

/-- Witness for C5 at concrete inputs: both hypotheses are satisfiable and
the conclusions evaluate. -/
theorem parsers_names_in_registry_witness :
    ("POPESCU ION" : String) ∈ CANDIDATE_NAMES ∧ ("IONESCU MARIA" : String) ∈ CANDIDATE_NAMES :=
  ⟨(parsers_names_in_registry CANDIDATE_NAMES).1
      [[some "nr", some "hdr", some "votes"], [some "1", some "POPESCU ION", some "150"]]
      [⟨"POPESCU ION", 150⟩] (by decide) ⟨"POPESCU ION", 150⟩ (by decide),
    (parsers_names_in_registry CANDIDATE_NAMES).2 "IONESCU MARIA 7"
      ⟨"IONESCU MARIA", 7⟩ (by decide)⟩

/-- Counterexample to C4: `parse_table_votes` places no lower bound on the
parsed vote count, because Python `int()` accepts a signed literal; the
grid whose vote cell is `"-5"` yields a VoteRecord with negative votes. -/
theorem parse_table_votes_negative_votes_cex :
    parse_table_votes CANDIDATE_NAMES
        [[some "nr", some "hdr", some "votes"], [some "1", some "POPESCU ION", some "-5"]] =
      .ok [⟨"POPESCU ION", -5⟩] ∧ ¬ (0 : Int) ≤ (-5 : Int) := by
  exact ⟨by decide, by decide⟩

/-- C4 as amended: every VoteRecord produced by `parse_candidate_votes`
has a non-negative votes field (its pattern only matches digit runs and it
filters `votes >= 0`); the same is not true of `parse_table_votes`. -/
theorem parse_candidate_votes_nonneg (registry : List String) (text : String)
    (r : VoteRecord) (h : r ∈ parse_candidate_votes registry text) : 0 ≤ r.votes :=
  (mem_parse_candidate_votes registry text r h).2

/-- Witness for the amended C4 at a concrete input. -/
theorem parse_candidate_votes_nonneg_witness :
    0 ≤ (VoteRecord.mk "POPESCU ION" 150).votes :=
  parse_candidate_votes_nonneg CANDIDATE_NAMES "POPESCU ION 150"
    ⟨"POPESCU ION", 150⟩ (by decide)

/-- The row loop body reads a row only through its length and its cells
at indices 1 and 2. -/
theorem rowStep_congr (registry : List String) (row1 row2 : List Cell)
    (hlen : row1.length = row2.length)
    (h1 : row1.getD 1 none = row2.getD 1 none)
    (h2 : row1.getD 2 none = row2.getD 2 none) :
    rowStep registry row1 = rowStep registry row2 := by
  unfold rowStep
  rw [hlen, h1, h2]

/-- The row loop is determined by the rows' lengths and cells 1 and 2. -/
theorem tableRows_congr (registry : List String) (rows1 rows2 : List (List Cell))
    (acc : List VoteRecord) (hlen : rows1.length = rows2.length)
    (hrows : ∀ p ∈ rows1.zip rows2,
      p.1.length = p.2.length ∧ p.1.getD 1 none = p.2.getD 1 none ∧
        p.1.getD 2 none = p.2.getD 2 none) :
    tableRows registry rows1 acc = tableRows registry rows2 acc := by
  induction rows1 generalizing rows2 acc with
  | nil =>
      cases rows2 with
      | nil => rfl
      | cons r rs => cases hlen
  | cons row rest ih =>
      cases rows2 with
      | nil => cases hlen
      | cons row2 rest2 =>
          have hhead := hrows (row, row2) (by simp [List.zip_cons_cons])
          have hstep := rowStep_congr registry row row2 hhead.1 hhead.2.1 hhead.2.2
          have htail : ∀ p ∈ rest.zip rest2,
              p.1.length = p.2.length ∧ p.1.getD 1 none = p.2.getD 1 none ∧
                p.1.getD 2 none = p.2.getD 2 none := by
            intro p hp
            exact hrows p (by simp [List.zip_cons_cons, hp])
          unfold tableRows
          rw [hstep]
          cases rowStep registry row2 with
          | error e => rfl
          | ok o =>
              cases o with
              | none => exact ih rest2 acc (by simpa using hlen) htail
              | some r => exact ih rest2 (acc ++ [r]) (by simpa using hlen) htail

/-- C10: `parse_table_votes` takes the name from each data row's second
cell (index 1) and the votes from its third cell (index 2); the contents
of all other cells never affect the result — two grids that agree row by
row on row length and on cells 1 and 2 parse identically. -/
theorem parse_table_votes_depends_only_on_cells_1_2 (registry : List String)
    (t1 t2 : Grid) (hlen : t1.length = t2.length)
    (hrows : ∀ p ∈ t1.zip t2,
      p.1.length = p.2.length ∧ p.1.getD 1 none = p.2.getD 1 none ∧
        p.1.getD 2 none = p.2.getD 2 none) :
    parse_table_votes registry t1 = parse_table_votes registry t2 := by
  unfold parse_table_votes
  have hempty : (t1 = [] ∨ t1.length < 2) ↔ (t2 = [] ∨ t2.length < 2) := by
    rw [← List.length_eq_zero, ← List.length_eq_zero, hlen]
  rcases Decidable.em (t2 = [] ∨ t2.length < 2) with hc | hc
  · rw [if_pos hc, if_pos (hempty.mpr hc)]
  · rw [if_neg hc, if_neg (fun hx => hc (hempty.mp hx))]
    cases t1 with
    | nil => cases t2 with
      | nil => rfl
      | cons b bs => cases hlen
    | cons a as =>
        cases t2 with
        | nil => cases hlen
        | cons b bs =>
            refine tableRows_congr registry as bs [] (by simpa using hlen) ?_
            intro p hp
            exact hrows p (by simp [List.zip_cons_cons, hp])

/-- Witness for C10: two concrete grids differing in cells other than
indices 1 and 2 parse to the same result. -/
theorem parse_table_votes_depends_only_on_cells_1_2_witness :
    parse_table_votes CANDIDATE_NAMES
        [[some "nr", some "hdr", some "votes"], [some "1", some "POPESCU ION", some "150"]] =
      parse_table_votes CANDIDATE_NAMES
        [[none, some "hdr", some "votes"], [some "other", some "POPESCU ION", some "150"]] :=
  parse_table_votes_depends_only_on_cells_1_2 CANDIDATE_NAMES _ _ (by decide) (by decide)

/-! ### Lemmas about the reconciliation dictionaries -/

/-- A dict entry makes the membership test of its key succeed. -/
theorem any_key_of_mem {d : PyDict} {p : String × Int} (hp : p ∈ d) :
    d.any (fun q => q.1 == p.1) = true :=
  List.any_eq_true.mpr ⟨p, hp, by simp⟩

/-- `dict.get` returns `None` exactly when the membership test fails. -/
theorem dictGet_eq_none_iff (d : PyDict) (k : String) :
    dictGet d k = none ↔ d.any (fun q => q.1 == k) = false := by
  unfold dictGet
  rw [Option.map_eq_none', List.find?_eq_none, List.any_eq_false]

/-- Dict assignment preserves pairwise distinctness of keys. -/
theorem nodupKeys_pyDictInsert {d : PyDict} (h : d.Pairwise (fun p q => p.1 ≠ q.1))
    (k : String) (v : Int) : (pyDictInsert d k v).Pairwise (fun p q => p.1 ≠ q.1) := by
  unfold pyDictInsert
  split
  · rw [List.pairwise_map]
    refine h.imp ?_
    intro p q hpq
    have kp : (if p.1 == k then (k, v) else p).1 = p.1 := by
      split
      · next hh => exact (beq_iff_eq.mp hh).symm
      · rfl
    have kq : (if q.1 == k then (k, v) else q).1 = q.1 := by
      split
      · next hh => exact (beq_iff_eq.mp hh).symm
      · rfl
    rw [kp, kq]
    exact hpq
  · next hany =>
    rw [List.pairwise_append]
    refine ⟨h, List.pairwise_singleton _ _, ?_⟩
    intro p hp q hq
    rcases List.mem_singleton.mp hq with rfl
    have hfalse : (p.1 == k) = false := by
      have := List.any_eq_false.mp (Bool.eq_false_iff.mpr hany) p hp
      simpa using this
    intro hc
    rw [hc] at hfalse
    simp at hfalse

/-- A dict built from a VoteSet has pairwise distinct keys. -/
theorem nodupKeys_buildDict (votes : List VoteRecord) :
    (buildDict votes).Pairwise (fun p q => p.1 ≠ q.1) := by
  suffices h : ∀ (l : List VoteRecord) (d : PyDict), d.Pairwise (fun p q => p.1 ≠ q.1) →
      (l.foldl (fun d r => pyDictInsert d r.name r.votes) d).Pairwise (fun p q => p.1 ≠ q.1) by
    exact h votes [] (List.Pairwise.nil)
  intro l
  induction l with
  | nil => intro d hd; exact hd
  | cons r rest ih =>
      intro d hd
      exact ih _ (nodupKeys_pyDictInsert hd r.name r.votes)

/-- In a dict with distinct keys, membership of a pair determines the
result of `dict.get` at its key. -/
theorem dictGet_of_mem {d : PyDict} (hnd : d.Pairwise (fun p q => p.1 ≠ q.1))
    {k : String} {v : Int} (hm : (k, v) ∈ d) : dictGet d k = some v := by
  induction d with
  | nil => cases hm
  | cons p rest ih =>
      rcases List.mem_cons.mp hm with rfl | hm2
      · simp [dictGet, List.find?]
      · have hne : p.1 ≠ k := by
          have := (List.pairwise_cons.mp hnd).1 (k, v) hm2
          simpa using this
        have hrest := ih (List.pairwise_cons.mp hnd).2 hm2
        unfold dictGet at hrest ⊢
        rw [List.find?_cons_of_neg]
        · exact hrest
        · simp [hne]

/-- `dict.get` only returns values actually stored in the dict. -/
theorem mem_of_dictGet {d : PyDict} {k : String} {v : Int}
    (h : dictGet d k = some v) : (k, v) ∈ d := by
  unfold dictGet at h
  rcases Option.map_eq_some'.mp h with ⟨p, hfind, hv⟩
  have hmem := List.mem_of_find?_eq_some hfind
  have hkey := List.find?_some hfind
  have : p = (k, v) := by
    cases p
    simp at hkey hv
    simp [hkey, hv]
  exact this ▸ hmem

/-- Counterexample to C1: two VoteSets built from the same underlying
vote counts (here both empty, so trivially the same mapping) do NOT
reconcile cleanly — the registry walk records a difference for every
registry name missing from both sides, so `all_match` is false and
`differences` is nonempty. -/
theorem compare_vote_results_same_counts_cex :
    buildDict ([] : List VoteRecord) = buildDict ([] : List VoteRecord) ∧
      (compare_vote_results CANDIDATE_NAMES [] []).all_match = false ∧
      (compare_vote_results CANDIDATE_NAMES [] []).differences =
        [⟨"POPESCU ION", none, none⟩, ⟨"IONESCU MARIA", none, none⟩] := by
  exact ⟨rfl, by decide, by decide⟩

/-- C1 as amended: for VoteSets A and B built from the same underlying
vote counts — i.e. whose induced name-to-votes mappings agree
extensionally, whatever order each parse emitted its records in —
provided that common mapping assigns a count to every registry name,
`compare_vote_results(A, B)` returns `all_match = true` and an empty
differences list. -/
theorem compare_vote_results_same_counts_all_match (registry : List String)
    (A B : List VoteRecord)
    (hext : ∀ n, dictGet (buildDict A) n = dictGet (buildDict B) n)
    (hcov : ∀ n ∈ registry, (dictGet (buildDict A) n).isSome = true) :
    compare_vote_results registry A B = ⟨true, []⟩ := by
  unfold compare_vote_results
  have hreg : registryDiffs registry (buildDict A) (buildDict B) = [] := by
    unfold registryDiffs
    rw [List.filterMap_eq_nil_iff]
    intro n hn
    obtain ⟨v, hv⟩ := Option.isSome_iff_exists.mp (hcov n hn)
    rw [hv, ← hext n, hv]
    simp
  have hextra : extraOcrDiffs (buildDict A) (buildDict B) = [] := by
    unfold extraOcrDiffs
    rw [List.filterMap_eq_nil_iff]
    intro p hp
    obtain ⟨p1, p2⟩ := p
    have hgetB : dictGet (buildDict B) p1 = some p2 :=
      dictGet_of_mem (nodupKeys_buildDict B) hp
    have hgetA : dictGet (buildDict A) p1 = some p2 := (hext p1).trans hgetB
    have hany : (buildDict A).any (fun q => q.1 == p1) = true := by
      rcases Bool.eq_false_or_eq_true ((buildDict A).any (fun q => q.1 == p1)) with ht | hf
      · exact ht
      · rw [(dictGet_eq_none_iff _ _).mpr hf] at hgetA
        cases hgetA
    simp [hany]
  dsimp only
  rw [hreg, hextra]
  rfl

/-- Witness for the amended C1 at concrete VoteSets that carry the same
counts in OPPOSITE record orders (the table path and the OCR path
generally emit records in different orders) and cover the registry. -/
theorem compare_vote_results_same_counts_all_match_witness :
    compare_vote_results CANDIDATE_NAMES
        [⟨"POPESCU ION", 10⟩, ⟨"IONESCU MARIA", 20⟩]
        [⟨"IONESCU MARIA", 20⟩, ⟨"POPESCU ION", 10⟩] = ⟨true, []⟩ :=
  compare_vote_results_same_counts_all_match CANDIDATE_NAMES
    [⟨"POPESCU ION", 10⟩, ⟨"IONESCU MARIA", 20⟩]
    [⟨"IONESCU MARIA", 20⟩, ⟨"POPESCU ION", 10⟩]
    (by
      intro n
      by_cases h1 : n = "POPESCU ION"
      · subst h1
        decide
      · by_cases h2 : n = "IONESCU MARIA"
        · subst h2
          decide
        · have e1 : buildDict [⟨"POPESCU ION", 10⟩, ⟨"IONESCU MARIA", 20⟩] =
              [("POPESCU ION", 10), ("IONESCU MARIA", 20)] := by decide
          have e2 : buildDict [⟨"IONESCU MARIA", 20⟩, ⟨"POPESCU ION", 10⟩] =
              [("IONESCU MARIA", 20), ("POPESCU ION", 10)] := by decide
          have f1 : (("POPESCU ION" : String) == n) = false :=
            beq_eq_false_iff_ne.mpr (fun hh => h1 hh.symm)
          have f2 : (("IONESCU MARIA" : String) == n) = false :=
            beq_eq_false_iff_ne.mpr (fun hh => h2 hh.symm)
          rw [e1, e2]
          simp [dictGet, List.find?_cons, f1, f2])
    (by decide)

/-- Counterexample to C3: a name that IS a member of the Candidate
Registry, present in the OCR mapping and absent from the table mapping,
is recorded by the second pass as well — it was already recorded by the
registry pass, so the identical difference entry appears twice in the
report. -/
theorem extraOcrDiffs_registry_name_cex :
    ("POPESCU ION" : String) ∈ CANDIDATE_NAMES ∧
      (⟨"POPESCU ION", none, some 5⟩ : Difference) ∈
        extraOcrDiffs (buildDict []) (buildDict [⟨"POPESCU ION", 5⟩]) ∧
      (compare_vote_results CANDIDATE_NAMES [] [⟨"POPESCU ION", 5⟩]).differences.count
        ⟨"POPESCU ION", none, some 5⟩ = 2 := by
  exact ⟨by decide, by decide, by decide⟩

/-- C3 as amended: the second pass over the OCR-derived mapping records a
difference `{name, text_votes: absent, ocr_votes: value}` for exactly the
names present in the OCR mapping and absent from the table mapping,
regardless of registry membership — so a registry name present only on
the OCR side is recorded twice, once by each pass. -/
theorem extraOcrDiffs_mem_iff (text ocr : List VoteRecord) (n : String) (v : Int) :
    (∀ registry, (compare_vote_results registry text ocr).differences =
        registryDiffs registry (buildDict text) (buildDict ocr) ++
          extraOcrDiffs (buildDict text) (buildDict ocr)) ∧
      ((⟨n, none, some v⟩ : Difference) ∈ extraOcrDiffs (buildDict text) (buildDict ocr) ↔
        dictGet (buildDict text) n = none ∧ dictGet (buildDict ocr) n = some v) := by
  refine ⟨fun registry => rfl, ?_⟩
  unfold extraOcrDiffs
  rw [List.mem_filterMap]
  constructor
  · rintro ⟨⟨p1, p2⟩, hp, hfp⟩
    split at hfp
    · cases hfp
    · next hany =>
      simp only [Option.some.injEq, Difference.mk.injEq] at hfp
      obtain ⟨rfl, -, rfl⟩ := hfp
      refine ⟨(dictGet_eq_none_iff _ _).mpr (Bool.eq_false_iff.mpr hany), ?_⟩
      exact dictGet_of_mem (nodupKeys_buildDict ocr) hp
  · rintro ⟨htd, hod⟩
    refine ⟨(n, v), mem_of_dictGet hod, ?_⟩
    have hany : (buildDict text).any (fun q => q.1 == n) = false :=
      (dictGet_eq_none_iff _ _).mp htd
    simp [hany]

/-- C7: `format_table_results` returns `total_votes` equal to the sum of
votes over the input, and for the empty VoteSet it returns `total_votes =
0` with an empty candidates list rather than an error. -/
theorem format_table_results_total_votes (candidates : List VoteRecord) :
    (format_table_results candidates).total_votes = (candidates.map (fun c => c.votes)).sum ∧
      (format_table_results []).total_votes = 0 ∧
      (format_table_results []).candidates = [] := by
  refine ⟨?_, rfl, rfl⟩
  unfold format_table_results
  split
  · next h => subst h; rfl
  · rfl

/-! ### Lemmas about the descending stable sort -/

/-- Membership in a stable descending insertion. -/
theorem mem_insertDesc {x a : FormattedCandidate} {l : List FormattedCandidate} :
    a ∈ insertDesc x l ↔ a = x ∨ a ∈ l := by
  induction l with
  | nil => simp [insertDesc]
  | cons y ys ih =>
      unfold insertDesc
      split
      · simp [List.mem_cons]
      · rw [List.mem_cons, ih, List.mem_cons]
        tauto

/-- Stable descending insertion preserves the descending order. -/
theorem pairwise_insertDesc {x : FormattedCandidate} {l : List FormattedCandidate}
    (h : l.Pairwise (fun a b => b.votes ≤ a.votes)) :
    (insertDesc x l).Pairwise (fun a b => b.votes ≤ a.votes) := by
  induction l with
  | nil => simp [insertDesc]
  | cons y ys ih =>
      rw [List.pairwise_cons] at h
      unfold insertDesc
      split
      · next hc =>
        rw [List.pairwise_cons]
        refine ⟨?_, List.pairwise_cons.mpr h⟩
        intro z hz
        rcases List.mem_cons.mp hz with rfl | hz2
        · exact le_of_lt hc
        · exact le_trans (h.1 z hz2) (le_of_lt hc)
      · next hc =>
        rw [List.pairwise_cons]
        constructor
        · intro z hz
          rcases mem_insertDesc.mp hz with rfl | hz2
          · exact not_lt.mp hc
          · exact h.1 z hz2
        · exact ih h.2

/-- Filtering one vote value out of a stable descending insertion: the
inserted element lands after every element with the same value. -/
theorem filter_insertDesc (x : FormattedCandidate) (l : List FormattedCandidate) (v : Int)
    (h : l.Pairwise (fun a b => b.votes ≤ a.votes)) :
    (insertDesc x l).filter (fun a => decide (a.votes = v)) =
      if x.votes = v then l.filter (fun a => decide (a.votes = v)) ++ [x]
      else l.filter (fun a => decide (a.votes = v)) := by
  induction l with
  | nil => by_cases hv : x.votes = v <;> simp [insertDesc, hv]
  | cons y ys ih =>
      rw [List.pairwise_cons] at h
      unfold insertDesc
      split
      · next hc =>
        by_cases hv : x.votes = v
        · have hnil : (y :: ys).filter (fun a => decide (a.votes = v)) = [] := by
            rw [List.filter_eq_nil_iff]
            intro z hz
            simp only [decide_eq_true_eq]
            rcases List.mem_cons.mp hz with rfl | hz2
            · exact ne_of_lt (hv ▸ hc)
            · exact ne_of_lt (lt_of_le_of_lt (h.1 z hz2) (hv ▸ hc))
          rw [if_pos hv, hnil, List.filter_cons]
          simp [hv, hnil]
        · rw [if_neg hv]
          simp [List.filter_cons, hv]
      · next hc =>
        by_cases hv : x.votes = v <;> by_cases hy : y.votes = v <;>
          simp [List.filter_cons, hv, hy, ih h.2]

/-- The sorting fold preserves the descending order of its accumulator. -/
theorem pairwise_sortFold (l : List FormattedCandidate) (acc : List FormattedCandidate)
    (h : acc.Pairwise (fun a b => b.votes ≤ a.votes)) :
    (l.foldl (fun a x => insertDesc x a) acc).Pairwise (fun a b => b.votes ≤ a.votes) := by
  induction l generalizing acc with
  | nil => exact h
  | cons x xs ih => exact ih (insertDesc x acc) (pairwise_insertDesc h)

/-- The sorting fold is stable: elements with any fixed vote value keep
their relative input order (accumulator first, then input order). -/
theorem filter_sortFold (l : List FormattedCandidate) (acc : List FormattedCandidate) (v : Int)
    (h : acc.Pairwise (fun a b => b.votes ≤ a.votes)) :
    (l.foldl (fun a x => insertDesc x a) acc).filter (fun a => decide (a.votes = v)) =
      acc.filter (fun a => decide (a.votes = v)) ++ l.filter (fun a => decide (a.votes = v)) := by
  induction l generalizing acc with
  | nil => simp
  | cons x xs ih =>
      rw [List.foldl_cons, ih (insertDesc x acc) (pairwise_insertDesc h),
        filter_insertDesc x acc v h]
      by_cases hv : x.votes = v <;> simp [List.filter_cons, hv]

/-- C8: the candidates sequence returned by `format_table_results` is
sorted descending by votes (every adjacent pair `(a, b)` satisfies
`a.votes >= b.votes`), and records with equal votes keep the relative
order in which the input VoteSet produced them (filtering the output and
the unsorted formatted input by any vote value gives the same list). -/
theorem format_table_results_sorted_stable (candidates : List VoteRecord) :
    List.Chain' (fun a b => b.votes ≤ a.votes) (format_table_results candidates).candidates ∧
      ∀ v : Int,
        (format_table_results candidates).candidates.filter (fun a => decide (a.votes = v)) =
          (formattedOf ((candidates.map (fun c => c.votes)).sum) candidates).filter
            (fun a => decide (a.votes = v)) := by
  unfold format_table_results
  split
  · next h => subst h; exact ⟨List.chain'_nil, fun v => rfl⟩
  · dsimp only
    constructor
    · exact (pairwise_sortFold _ [] List.Pairwise.nil).chain'
    · intro v
      simpa [sortByVotesDesc] using
        filter_sortFold (formattedOf ((candidates.map (fun c => c.votes)).sum) candidates)
          [] v List.Pairwise.nil

/-- C9: `extract_pdf_content` raises to the caller — with a precise
message — when the document file does not exist (`FileNotFoundError`),
and when the requested page number exceeds the document's page count
(`ValueError`). -/
theorem extract_pdf_content_input_errors (registry : List String) (fs : PdfFs)
    (pdf_path : String) (page_number : Int) :
    (lookupPdf fs pdf_path = none →
        extract_pdf_content registry fs pdf_path page_number =
          .error (.fileNotFoundError ("PDF file not found: " ++ pdf_path))) ∧
      ∀ pdf, lookupPdf fs pdf_path = some pdf →
        (pdf.pages.length : Int) < page_number →
        extract_pdf_content registry fs pdf_path page_number =
          .error (.valueError ("PDF only has " ++ toString pdf.pages.length ++
            " pages, requested page " ++ toString page_number)) := by
  constructor
  · intro h
    unfold extract_pdf_content
    rw [h]
    rfl
  · intro pdf hpdf hlt
    unfold extract_pdf_content
    rw [hpdf]
    simp only [if_pos hlt]
    rfl

/-- Witness for C9: both error paths fire at concrete inputs. -/
theorem extract_pdf_content_input_errors_witness :
    extract_pdf_content CANDIDATE_NAMES [] "a.pdf" 2 =
        .error (.fileNotFoundError "PDF file not found: a.pdf") ∧
      extract_pdf_content CANDIDATE_NAMES [("a.pdf", ⟨[⟨some "", []⟩]⟩)] "a.pdf" 5 =
        .error (.valueError "PDF only has 1 pages, requested page 5") :=
  ⟨(extract_pdf_content_input_errors CANDIDATE_NAMES [] "a.pdf" 2).1 rfl,
    (extract_pdf_content_input_errors CANDIDATE_NAMES [("a.pdf", ⟨[⟨some "", []⟩]⟩)]
      "a.pdf" 5).2 ⟨[⟨some "", []⟩]⟩ rfl (by decide)⟩

/-- C2 fails on the code (the claim matches the intent stated by the
source's own comments, "Check if file was already processed" and "Mark
file as processed"): when `process_file` downloads the document, the
source rebinds the variable `pdf_file` to the HTTP response object, so
`processed_files.add(pdf_file)` stores the response object instead of the
derived filename.  Concretely: after a first completed run that had to
download `abc.pdf` (extraction succeeding with `all_match = true`), the
registry holds only the response object and not the filename, and a
second run for the same item is NOT skipped at the registry check — it
logs no skip message and reaches the processing stage a second time
(only the disk-existence check prevents a second download). -/
theorem process_file_registry_filename_bug :
    (process_file (fun _ => .ok true) ("id1", [⟨some "x/abc.pdf"⟩])
        ⟨[], [], [], [], []⟩).processedFiles = [RegEntry.responseObj 0] ∧
      RegEntry.filename "abc.pdf" ∉
        (process_file (fun _ => .ok true) ("id1", [⟨some "x/abc.pdf"⟩])
          ⟨[], [], [], [], []⟩).processedFiles ∧
      (process_file (fun _ => .ok true) ("id1", [⟨some "x/abc.pdf"⟩])
          (process_file (fun _ => .ok true) ("id1", [⟨some "x/abc.pdf"⟩])
            ⟨[], [], [], [], []⟩)).log.count "Processing data/pdfs/abc.pdf" = 2 ∧
      (process_file (fun _ => .ok true) ("id1", [⟨some "x/abc.pdf"⟩])
          (process_file (fun _ => .ok true) ("id1", [⟨some "x/abc.pdf"⟩])
            ⟨[], [], [], [], []⟩)).log.count "Skipping already processed file: id1" = 0 := by
  exact ⟨by decide, by decide, by decide, by decide⟩
